import Mathlib

/-!
Verification of the bus-stop spatial index from `s20/p2/bus.py`.

The geometry of the partition tree (`Node`), its construction and its
rectangle / circle searches only compare, sort and do field arithmetic on
coordinates, so the Python floats are embedded as rationals (`ℚ`), which
keeps every operation of the source executable and decidable.  The
geo-projection layer (`haversine_miles`, the lat/lon branch of
`Location.__init__`) genuinely uses trigonometric functions and is embedded
over the reals (`ℝ`).

`Node.__init__(stops, i=1)` recurses with `i` growing from 1 to the
hard-coded cutoff 7; Python raises `IndexError` on `stops[len(stops)//2]`
when a subset handed to an internal level is empty, and would recurse
forever if it were ever entered with `i > 7`.  Both failure modes are made
explicit by returning `Option`: the recursion is driven by the fuel
`7 - i`, which matches the source's depth counter exactly on every
reachable call, and exhausted fuel (the unreachable `i > 7` divergence)
yields `none` just as an empty internal subset does.
-/

namespace Bus

/-- Planar projected coordinates in miles, the `(x, y)` payload of the
Python `Location` class (the lat/lon constructor branch is modelled
separately over `ℝ` below). -/
structure Location where
  x : ℚ
  y : ℚ
deriving DecidableEq

/-- A transit stop: identifier, projected location, accessibility flag,
mirroring the Python `Stop` class. -/
structure Stop where
  stop_id : ℕ
  location : Location
  wheelchair_boarding : Bool
deriving DecidableEq

/-- The partition tree.  The Python `Node` class stores either a split
`Location` in `val` with two child `Node`s (internal, depths 1..6) or the
residual stop list in `val` with `left = right = None` (leaf, depth 7);
here that union is a tagged variant. -/
inductive Node where
  | inner (val : Location) (left : Node) (right : Node)
  | leaf (val : List Stop)
deriving DecidableEq

/-- The comparison key of `sorted(stops, key=lambda s: s.location.x)`. -/
def leX (a b : Stop) : Prop := a.location.x ≤ b.location.x

/-- The comparison key of `sorted(stops, key=lambda s: s.location.y)`. -/
def leY (a b : Stop) : Prop := a.location.y ≤ b.location.y

instance : DecidableRel leX := fun a b => inferInstanceAs (Decidable (a.location.x ≤ b.location.x))

instance : DecidableRel leY := fun a b => inferInstanceAs (Decidable (a.location.y ≤ b.location.y))

instance : IsTotal Stop leX := ⟨fun a b => le_total a.location.x b.location.x⟩

instance : IsTotal Stop leY := ⟨fun a b => le_total a.location.y b.location.y⟩

instance : IsTrans Stop leX := ⟨fun _ _ _ h1 h2 => le_trans h1 h2⟩

instance : IsTrans Stop leY := ⟨fun _ _ _ h1 h2 => le_trans h1 h2⟩

/-- `sorted(stops, key=...)`: Python's sort is stable, as is
`List.insertionSort`, so the two agree exactly. -/
def sortByX (stops : List Stop) : List Stop := List.insertionSort leX stops

/-- `sorted(stops, key=lambda s: s.location.y)`. -/
def sortByY (stops : List Stop) : List Stop := List.insertionSort leY stops

/-- The sort performed at depth `i` in `Node.__init__`:
`if i % 2 != 0` sort by x else by y. -/
def sortAxis (i : ℕ) (stops : List Stop) : List Stop :=
  if i % 2 ≠ 0 then sortByX stops else sortByY stops

/-- The split coordinate compared at depth `i`: `self.val.x` at odd depth,
`self.val.y` at even depth. -/
def axisOf (i : ℕ) (v : Location) : ℚ :=
  if i % 2 ≠ 0 then v.x else v.y

/-- `Node.__init__(stops, i)` with explicit fuel.  On every call the source
can reach, the fuel equals `7 - i`; fuel `0` with `i ≠ 7` is the
unreachable divergence `i > 7`.  An empty internal subset makes
`stops[len(stops)//2]` (here `ss[ss.length / 2]?`) fail, so the whole
construction fails, exactly as Python's `IndexError` aborts `__init__`. -/
def buildAux : ℕ → List Stop → ℕ → Option Node
  | 0, stops, i => if i ≠ 7 then none else some (.leaf stops)
  | fuel + 1, stops, i =>
    if i ≠ 7 then
      match (sortAxis i stops)[(sortAxis i stops).length / 2]?,
          buildAux fuel ((sortAxis i stops).take ((sortAxis i stops).length / 2)) (i + 1),
          buildAux fuel ((sortAxis i stops).drop ((sortAxis i stops).length / 2)) (i + 1) with
      | some m, some l, some r => some (.inner m.location l r)
      | _, _, _ => none
    else some (.leaf stops)

/-- `Node(stops, i)`: the constructor entered at depth `i`. -/
def buildNode (stops : List Stop) (i : ℕ) : Option Node := buildAux (7 - i) stops i

/-- `Node(stops)` with the default depth argument `i=1`. -/
def build (stops : List Stop) : Option Node := buildNode stops 1

/-- The per-stop containment test of the leaf branch of `Node.search`:
`stop.location.x >= x1 and ... <= x2 and ... >= y1 and ... <= y2`. -/
def inRect (xlim ylim : ℚ × ℚ) (s : Stop) : Bool :=
  decide (xlim.1 ≤ s.location.x ∧ s.location.x ≤ xlim.2 ∧
    ylim.1 ≤ s.location.y ∧ s.location.y ≤ ylim.2)

/-- `Node.search(self, xlim, ylim, i=1)`.  The source dispatches on the
depth counter: `i < 7` is the internal-node branching on the split
coordinate, `i >= 7` the leaf filter over `self.val`.  The two mismatch
arms (`leaf` met while `i < 7`, `inner` met at `i ≥ 7`) cannot occur on a
tree produced by `buildNode` — in Python they would crash on `None.search`
resp. on iterating a `Location` — and return `[]` here. -/
def Node.search : Node → ℚ × ℚ → ℚ × ℚ → ℕ → List Stop
  | .inner v l r, xlim, ylim, i =>
    if i < 7 then
      if i % 2 ≠ 0 then
        if xlim.1 ≤ v.x ∧ v.x ≤ xlim.2 then
          l.search xlim ylim (i + 1) ++ r.search xlim ylim (i + 1)
        else if v.x ≤ xlim.1 then
          r.search xlim ylim (i + 1)
        else
          l.search xlim ylim (i + 1)
      else
        if ylim.1 ≤ v.y ∧ v.y ≤ ylim.2 then
          l.search xlim ylim (i + 1) ++ r.search xlim ylim (i + 1)
        else if v.y ≤ ylim.1 then
          r.search xlim ylim (i + 1)
        else
          l.search xlim ylim (i + 1)
    else []
  | .leaf stops, xlim, ylim, i =>
    if i < 7 then []
    else stops.filter (inRect xlim ylim)

/-- All stops stored in the leaves of a subtree, left to right. -/
def Node.allStops : Node → List Stop
  | .inner _ l r => l.allStops ++ r.allStops
  | .leaf s => s

/-- Number of leaves of a tree. -/
def Node.numLeaves : Node → ℕ
  | .inner _ l r => l.numLeaves + r.numLeaves
  | .leaf _ => 1

/-- Shape invariant of built trees: a subtree rooted at depth `i` is
internal exactly when `i < 7`, so every leaf sits at depth 7. -/
def Node.shapeAt : Node → ℕ → Prop
  | .inner _ l r, i => i < 7 ∧ l.shapeAt (i + 1) ∧ r.shapeAt (i + 1)
  | .leaf _, i => i = 7

/-- Ordering invariant of built trees: below an internal node at depth `i`,
every stop of the left subtree is `≤` the split value on the depth-`i`
axis and every stop of the right subtree is `≥` it. -/
def Node.goodAt : Node → ℕ → Prop
  | .inner v l r, i =>
      (∀ s ∈ l.allStops, axisOf i s.location ≤ axisOf i v) ∧
      (∀ s ∈ r.allStops, axisOf i v ≤ axisOf i s.location) ∧
      l.goodAt (i + 1) ∧ r.goodAt (i + 1)
  | .leaf _, _ => True

/-- The full median-split description of an internal node at depth `i`:
some sorted arrangement `ss` of the node's stops (its input subset up to
permutation) is sorted on the depth-`i` axis, the split value is the
location of `ss[len(ss) // 2]` (the median element, which goes to the
right partition), the left child holds exactly the elements at indices
`[0, mid)` and the right child exactly those at `[mid, len)`, and every
stop of the left subtree is `≤` the split value on the axis. -/
def Node.medianInv : Node → ℕ → Prop
  | .inner v l r, i => ∃ ss : List Stop,
      ss.Perm (l.allStops ++ r.allStops) ∧
      ss.Sorted (fun a b => axisOf i a.location ≤ axisOf i b.location) ∧
      (∃ m : Stop, ss[ss.length / 2]? = some m ∧ v = m.location) ∧
      (l.allStops).Perm (ss.take (ss.length / 2)) ∧
      (r.allStops).Perm (ss.drop (ss.length / 2)) ∧
      (∀ s ∈ l.allStops, axisOf i s.location ≤ axisOf i v) ∧
      l.medianInv (i + 1) ∧ r.medianInv (i + 1)
  | .leaf _, _ => True

/-- The queried state of the Python `BusDay` object: the feed-file fields
(`calendar`, `service_ids`, `trip_l`, ...) are file-parsing concerns
outside the core; queries touch only `self.tree`. -/
structure BusDay where
  tree : Node

/-- `BusDay.get_stops_rect(self, xlim, ylim)`. -/
def get_stops_rect (b : BusDay) (xlim ylim : ℚ × ℚ) : List Stop :=
  b.tree.search xlim ylim 1

/-- `BusDay.get_stops_circ(self, origin, radius)`: bounding square, then
rectangle search, then the squared-distance filter (the loop appending to
`circ_list` is a filter). -/
def get_stops_circ (b : BusDay) (origin : ℚ × ℚ) (radius : ℚ) : List Stop :=
  let xlim := (origin.1 - radius, origin.1 + radius)
  let ylim := (origin.2 - radius, origin.2 + radius)
  (get_stops_rect b xlim ylim).filter (fun s =>
    decide ((s.location.x - origin.1) ^ 2 + (s.location.y - origin.2) ^ 2 ≤ radius ^ 2))

/-! ### Basic facts about the sort and the build recursion -/

lemma sortAxis_perm (i : ℕ) (stops : List Stop) : (sortAxis i stops).Perm stops := by
  unfold sortAxis
  split
  · exact List.perm_insertionSort leX stops
  · exact List.perm_insertionSort leY stops

lemma sortAxis_pairwise (i : ℕ) (stops : List Stop) :
    (sortAxis i stops).Pairwise (fun a b => axisOf i a.location ≤ axisOf i b.location) := by
  unfold sortAxis
  by_cases h : i % 2 ≠ 0
  · rw [if_pos h]
    refine List.Pairwise.imp ?_ (List.sorted_insertionSort leX stops)
    intro a b hab
    simpa [axisOf, h] using hab
  · rw [if_neg h]
    refine List.Pairwise.imp ?_ (List.sorted_insertionSort leY stops)
    intro a b hab
    simpa [axisOf, h] using hab

lemma buildAux_zero {stops : List Stop} {i : ℕ} (hi : i ≠ 7) : buildAux 0 stops i = none := by
  simp [buildAux, hi]

lemma buildAux_at7 (fuel : ℕ) (stops : List Stop) :
    buildAux fuel stops 7 = some (.leaf stops) := by
  cases fuel <;> simp [buildAux]

lemma buildAux_succ_some {fuel : ℕ} {stops : List Stop} {i : ℕ} {t : Node} (hi : i ≠ 7)
    (h : buildAux (fuel + 1) stops i = some t) :
    ∃ m l r, (sortAxis i stops)[(sortAxis i stops).length / 2]? = some m ∧
      buildAux fuel ((sortAxis i stops).take ((sortAxis i stops).length / 2)) (i + 1) = some l ∧
      buildAux fuel ((sortAxis i stops).drop ((sortAxis i stops).length / 2)) (i + 1) = some r ∧
      t = .inner m.location l r := by
  rw [buildAux, if_pos hi] at h
  cases hm : (sortAxis i stops)[(sortAxis i stops).length / 2]? with
  | none => rw [hm] at h; simp at h
  | some m =>
    rw [hm] at h
    cases hl : buildAux fuel ((sortAxis i stops).take ((sortAxis i stops).length / 2)) (i + 1) with
    | none => rw [hl] at h; simp at h
    | some l =>
      rw [hl] at h
      cases hr : buildAux fuel ((sortAxis i stops).drop ((sortAxis i stops).length / 2))
          (i + 1) with
      | none => rw [hr] at h; simp at h
      | some r =>
        rw [hr] at h
        exact ⟨m, l, r, rfl, rfl, rfl, (Option.some.inj h).symm⟩

/-- In a list pairwise-ordered by a reflexive relation, the element at the
integer-division midpoint is an upper bound for the prefix before it and a
lower bound for the suffix from it on. -/
lemma pairwise_mid_bounds {α : Type} (R : α → α → Prop) (hrefl : ∀ a, R a a) {ss : List α}
    (h : ss.Pairwise R) {m : α} (hm : ss[ss.length / 2]? = some m) :
    (∀ s ∈ ss.take (ss.length / 2), R s m) ∧ ∀ s ∈ ss.drop (ss.length / 2), R m s := by
  obtain ⟨hlt, hget⟩ := List.getElem?_eq_some.mp hm
  have hdrop : ss.drop (ss.length / 2) = m :: ss.drop (ss.length / 2 + 1) := by
    rw [List.drop_eq_getElem_cons hlt, hget]
  constructor
  · intro s hs
    have hp : List.Pairwise R (ss.take (ss.length / 2) ++ ss.drop (ss.length / 2)) := by
      rw [List.take_append_drop]; exact h
    refine (List.pairwise_append.mp hp).2.2 s hs m ?_
    rw [hdrop]; exact List.mem_cons_self _ _
  · intro s hs
    rw [hdrop] at hs
    rcases List.mem_cons.mp hs with rfl | hs2
    · exact hrefl s
    · have hpd : List.Pairwise R (ss.drop (ss.length / 2)) :=
        List.Pairwise.sublist (List.drop_sublist _ _) h
      rw [hdrop] at hpd
      exact (List.pairwise_cons.mp hpd).1 s hs2

/-! ### Structural invariants established by the build -/

lemma buildAux_allStops : ∀ (fuel : ℕ) (stops : List Stop) (i : ℕ) (t : Node),
    buildAux fuel stops i = some t → t.allStops.Perm stops := by
  intro fuel
  induction fuel with
  | zero =>
    intro stops i t h
    by_cases hi : i = 7
    · subst hi
      rw [buildAux_at7] at h
      cases Option.some.inj h
      exact List.Perm.refl _
    · rw [buildAux_zero hi] at h
      exact absurd h (by simp)
  | succ fuel ih =>
    intro stops i t h
    by_cases hi : i = 7
    · subst hi
      rw [buildAux_at7] at h
      cases Option.some.inj h
      exact List.Perm.refl _
    · obtain ⟨m, l, r, _, hl, hr, ht⟩ := buildAux_succ_some hi h
      subst ht
      have pl := ih _ _ _ hl
      have pr := ih _ _ _ hr
      have h2 : ((sortAxis i stops).take ((sortAxis i stops).length / 2) ++
          (sortAxis i stops).drop ((sortAxis i stops).length / 2)).Perm stops := by
        rw [List.take_append_drop]
        exact sortAxis_perm i stops
      exact (pl.append pr).trans h2

lemma buildAux_shapeAt : ∀ (fuel : ℕ) (stops : List Stop) (i : ℕ) (t : Node),
    buildAux fuel stops i = some t → i + fuel = 7 → t.shapeAt i := by
  intro fuel
  induction fuel with
  | zero =>
    intro stops i t h hfi
    have hi : i = 7 := by omega
    subst hi
    rw [buildAux_at7] at h
    cases Option.some.inj h
    exact rfl
  | succ fuel ih =>
    intro stops i t h hfi
    have hi : i ≠ 7 := by omega
    obtain ⟨m, l, r, _, hl, hr, ht⟩ := buildAux_succ_some hi h
    subst ht
    exact ⟨by omega, ih _ _ _ hl (by omega), ih _ _ _ hr (by omega)⟩

lemma buildAux_goodAt : ∀ (fuel : ℕ) (stops : List Stop) (i : ℕ) (t : Node),
    buildAux fuel stops i = some t → t.goodAt i := by
  intro fuel
  induction fuel with
  | zero =>
    intro stops i t h
    by_cases hi : i = 7
    · subst hi
      rw [buildAux_at7] at h
      cases Option.some.inj h
      trivial
    · rw [buildAux_zero hi] at h
      exact absurd h (by simp)
  | succ fuel ih =>
    intro stops i t h
    by_cases hi : i = 7
    · subst hi
      rw [buildAux_at7] at h
      cases Option.some.inj h
      trivial
    · obtain ⟨m, l, r, hm, hl, hr, ht⟩ := buildAux_succ_some hi h
      subst ht
      have bounds := @pairwise_mid_bounds Stop
        (fun a b => axisOf i a.location ≤ axisOf i b.location)
        (fun a => le_refl (axisOf i a.location)) (sortAxis i stops)
        (sortAxis_pairwise i stops) m hm
      have pl := buildAux_allStops _ _ _ _ hl
      have pr := buildAux_allStops _ _ _ _ hr
      refine ⟨?_, ?_, ih _ _ _ hl, ih _ _ _ hr⟩
      · intro s hs
        exact bounds.1 s (pl.mem_iff.mp hs)
      · intro s hs
        exact bounds.2 s (pr.mem_iff.mp hs)

lemma buildAux_medianInv : ∀ (fuel : ℕ) (stops : List Stop) (i : ℕ) (t : Node),
    buildAux fuel stops i = some t → t.medianInv i := by
  intro fuel
  induction fuel with
  | zero =>
    intro stops i t h
    by_cases hi : i = 7
    · subst hi
      rw [buildAux_at7] at h
      cases Option.some.inj h
      trivial
    · rw [buildAux_zero hi] at h
      exact absurd h (by simp)
  | succ fuel ih =>
    intro stops i t h
    by_cases hi : i = 7
    · subst hi
      rw [buildAux_at7] at h
      cases Option.some.inj h
      trivial
    · obtain ⟨m, l, r, hm, hl, hr, ht⟩ := buildAux_succ_some hi h
      subst ht
      have bounds := @pairwise_mid_bounds Stop
        (fun a b => axisOf i a.location ≤ axisOf i b.location)
        (fun a => le_refl (axisOf i a.location)) (sortAxis i stops)
        (sortAxis_pairwise i stops) m hm
      have pl := buildAux_allStops _ _ _ _ hl
      have pr := buildAux_allStops _ _ _ _ hr
      refine ⟨sortAxis i stops, ?_, sortAxis_pairwise i stops, ⟨m, hm, rfl⟩, pl, pr, ?_,
        ih _ _ _ hl, ih _ _ _ hr⟩
      · have h3 := pl.append pr
        rw [List.take_append_drop] at h3
        exact h3.symm
      · intro s hs
        exact bounds.1 s (pl.mem_iff.mp hs)

/-! ### Exactness of the range search -/

lemma axisOf_odd {i : ℕ} (h : i % 2 ≠ 0) (v : Location) : axisOf i v = v.x := by
  simp [axisOf, h]

lemma axisOf_even {i : ℕ} (h : ¬i % 2 ≠ 0) (v : Location) : axisOf i v = v.y := by
  simp [axisOf, h]

lemma inRect_false_x_lt {x1 x2 y1 y2 : ℚ} {s : Stop} (h : s.location.x < x1) :
    inRect (x1, x2) (y1, y2) s = false := by
  simp only [inRect, decide_eq_false_iff_not]
  rintro ⟨h1, -⟩
  exact absurd h (not_lt.mpr h1)

lemma inRect_false_lt_x {x1 x2 y1 y2 : ℚ} {s : Stop} (h : x2 < s.location.x) :
    inRect (x1, x2) (y1, y2) s = false := by
  simp only [inRect, decide_eq_false_iff_not]
  rintro ⟨-, h2, -⟩
  exact absurd h (not_lt.mpr h2)

lemma inRect_false_y_lt {x1 x2 y1 y2 : ℚ} {s : Stop} (h : s.location.y < y1) :
    inRect (x1, x2) (y1, y2) s = false := by
  simp only [inRect, decide_eq_false_iff_not]
  rintro ⟨-, -, h3, -⟩
  exact absurd h (not_lt.mpr h3)

lemma inRect_false_lt_y {x1 x2 y1 y2 : ℚ} {s : Stop} (h : y2 < s.location.y) :
    inRect (x1, x2) (y1, y2) s = false := by
  simp only [inRect, decide_eq_false_iff_not]
  rintro ⟨-, -, -, h4⟩
  exact absurd h (not_lt.mpr h4)

/-- On a well-shaped, well-ordered subtree rooted at depth `i`, the pruned
search returns exactly the stops of the subtree that satisfy the rectangle
test, up to order, provided the bounds are in ascending order. -/
lemma search_exact : ∀ (t : Node) (i : ℕ), t.shapeAt i → t.goodAt i →
    ∀ x1 x2 y1 y2 : ℚ, x1 ≤ x2 → y1 ≤ y2 →
    (t.search (x1, x2) (y1, y2) i).Perm
      ((t.allStops).filter (inRect (x1, x2) (y1, y2))) := by
  intro t
  induction t with
  | leaf stops =>
    intro i hs hg x1 x2 y1 y2 hx hy
    have hi7 : i = 7 := hs
    subst hi7
    simp [Node.search, Node.allStops]
  | inner v l r ihl ihr =>
    intro i hs hg x1 x2 y1 y2 hx hy
    obtain ⟨hi, hsl, hsr⟩ := hs
    obtain ⟨hgl, hgr, hgl2, hgr2⟩ := hg
    have IHL := ihl (i + 1) hsl hgl2 x1 x2 y1 y2 hx hy
    have IHR := ihr (i + 1) hsr hgr2 x1 x2 y1 y2 hx hy
    show (Node.search (.inner v l r) (x1, x2) (y1, y2) i).Perm _
    rw [Node.search, if_pos hi]
    have hall : (Node.allStops (.inner v l r)) = l.allStops ++ r.allStops := rfl
    rw [hall, List.filter_append]
    by_cases hodd : i % 2 ≠ 0
    · rw [if_pos hodd]
      by_cases h1 : x1 ≤ v.x ∧ v.x ≤ x2
      · rw [if_pos h1]
        exact IHL.append IHR
      · rw [if_neg h1]
        by_cases h2 : v.x ≤ x1
        · rw [if_pos h2]
          have hvlt : v.x < x1 := by
            rcases lt_or_le v.x x1 with hlt | hge
            · exact hlt
            · exact absurd ⟨hge, h2.trans hx⟩ h1
          have hnil : l.allStops.filter (inRect (x1, x2) (y1, y2)) = [] := by
            refine List.filter_eq_nil_iff.mpr ?_
            intro s hs2
            have hle := hgl s hs2
            rw [axisOf_odd hodd, axisOf_odd hodd] at hle
            simp [inRect_false_x_lt (lt_of_le_of_lt hle hvlt)]
          rw [hnil, List.nil_append]
          exact IHR
        · rw [if_neg h2]
          have hvgt : x2 < v.x := by
            rcases lt_or_le x2 v.x with hlt | hge
            · exact hlt
            · exact absurd ⟨le_of_lt (not_le.mp h2), hge⟩ h1
          have hnil : r.allStops.filter (inRect (x1, x2) (y1, y2)) = [] := by
            refine List.filter_eq_nil_iff.mpr ?_
            intro s hs2
            have hle := hgr s hs2
            rw [axisOf_odd hodd, axisOf_odd hodd] at hle
            simp [inRect_false_lt_x (lt_of_lt_of_le hvgt hle)]
          rw [hnil, List.append_nil]
          exact IHL
    · rw [if_neg hodd]
      by_cases h1 : y1 ≤ v.y ∧ v.y ≤ y2
      · rw [if_pos h1]
        exact IHL.append IHR
      · rw [if_neg h1]
        by_cases h2 : v.y ≤ y1
        · rw [if_pos h2]
          have hvlt : v.y < y1 := by
            rcases lt_or_le v.y y1 with hlt | hge
            · exact hlt
            · exact absurd ⟨hge, h2.trans hy⟩ h1
          have hnil : l.allStops.filter (inRect (x1, x2) (y1, y2)) = [] := by
            refine List.filter_eq_nil_iff.mpr ?_
            intro s hs2
            have hle := hgl s hs2
            rw [axisOf_even hodd, axisOf_even hodd] at hle
            simp [inRect_false_y_lt (lt_of_le_of_lt hle hvlt)]
          rw [hnil, List.nil_append]
          exact IHR
        · rw [if_neg h2]
          have hvgt : y2 < v.y := by
            rcases lt_or_le y2 v.y with hlt | hge
            · exact hlt
            · exact absurd ⟨le_of_lt (not_le.mp h2), hge⟩ h1
          have hnil : r.allStops.filter (inRect (x1, x2) (y1, y2)) = [] := by
            refine List.filter_eq_nil_iff.mpr ?_
            intro s hs2
            have hle := hgr s hs2
            rw [axisOf_even hodd, axisOf_even hodd] at hle
            simp [inRect_false_lt_y (lt_of_lt_of_le hvgt hle)]
          rw [hnil, List.append_nil]
          exact IHL

/-- Combination with the build: the root search over a built tree is exact
with respect to the input population. -/
lemma build_search_exact {pop : List Stop} {t : Node} (hb : build pop = some t)
    {x1 x2 y1 y2 : ℚ} (hx : x1 ≤ x2) (hy : y1 ≤ y2) :
    (t.search (x1, x2) (y1, y2) 1).Perm (pop.filter (inRect (x1, x2) (y1, y2))) := by
  have hb6 : buildAux 6 pop 1 = some t := hb
  have hshape := buildAux_shapeAt 6 pop 1 t hb6 (by norm_num)
  have hgood := buildAux_goodAt 6 pop 1 t hb6
  have hperm := buildAux_allStops 6 pop 1 t hb6
  exact (search_exact t 1 hshape hgood x1 x2 y1 y2 hx hy).trans (hperm.filter _)

/-- A strictly reversed bound on either axis defeats the (unnormalized)
leaf test, so the search returns nothing at all, on any tree. -/
lemma search_reversed : ∀ (t : Node) (a b c d : ℚ) (i : ℕ),
    b < a ∨ d < c → t.search (a, b) (c, d) i = [] := by
  intro t
  induction t with
  | leaf stops =>
    intro a b c d i h
    rw [Node.search]
    by_cases hi : i < 7
    · rw [if_pos hi]
    · rw [if_neg hi]
      refine List.filter_eq_nil_iff.mpr ?_
      intro s hs
      rcases h with hba | hdc
      · simp only [inRect, decide_eq_true_eq]
        rintro ⟨h1, h2, -⟩
        exact absurd (h1.trans h2) (not_le.mpr hba)
      · simp only [inRect, decide_eq_true_eq]
        rintro ⟨-, -, h3, h4⟩
        exact absurd (h3.trans h4) (not_le.mpr hdc)
  | inner v l r ihl ihr =>
    intro a b c d i h
    rw [Node.search]
    by_cases hi : i < 7
    · rw [if_pos hi]
      by_cases hodd : i % 2 ≠ 0
      · rw [if_pos hodd]
        by_cases h1 : a ≤ v.x ∧ v.x ≤ b
        · rw [if_pos h1, ihl a b c d (i + 1) h, ihr a b c d (i + 1) h, List.append_nil]
        · rw [if_neg h1]
          by_cases h2 : v.x ≤ a
          · rw [if_pos h2, ihr a b c d (i + 1) h]
          · rw [if_neg h2, ihl a b c d (i + 1) h]
      · rw [if_neg hodd]
        by_cases h1 : c ≤ v.y ∧ v.y ≤ d
        · rw [if_pos h1, ihl a b c d (i + 1) h, ihr a b c d (i + 1) h, List.append_nil]
        · rw [if_neg h1]
          by_cases h2 : v.y ≤ c
          · rw [if_pos h2, ihr a b c d (i + 1) h]
          · rw [if_neg h2, ihl a b c d (i + 1) h]
    · rw [if_neg hi]

/-! ### Exactly when the construction succeeds -/

lemma buildAux_isSome : ∀ (fuel : ℕ) (stops : List Stop) (i : ℕ), i + fuel = 7 →
    ((buildAux fuel stops i).isSome = true ↔
      (fuel = 0 ∨ 2 ^ (fuel - 1) ≤ stops.length)) := by
  intro fuel
  induction fuel with
  | zero =>
    intro stops i h7
    have hi : i = 7 := by omega
    subst hi
    rw [buildAux_at7]
    simp
  | succ fuel ih =>
    intro stops i h7
    have hi : i ≠ 7 := by omega
    have hlen : (sortAxis i stops).length = stops.length := (sortAxis_perm i stops).length_eq
    have htake : ((sortAxis i stops).take ((sortAxis i stops).length / 2)).length =
        stops.length / 2 := by
      rw [List.length_take, hlen]
      omega
    have hdrop : ((sortAxis i stops).drop ((sortAxis i stops).length / 2)).length =
        stops.length - stops.length / 2 := by
      rw [List.length_drop, hlen]
    constructor
    · intro hsome
      obtain ⟨t, ht⟩ := Option.isSome_iff_exists.mp hsome
      obtain ⟨m, l, r, hm, hl, hr, -⟩ := buildAux_succ_some hi ht
      have hmid : (sortAxis i stops).length / 2 < (sortAxis i stops).length :=
        (List.getElem?_eq_some.mp hm).1
      have hpos : 1 ≤ stops.length := by omega
      have hlS : (buildAux fuel ((sortAxis i stops).take ((sortAxis i stops).length / 2))
          (i + 1)).isSome = true := by rw [hl]; rfl
      have hrec := (ih _ (i + 1) (by omega)).mp hlS
      right
      rcases hrec with hf0 | hbound
      · subst hf0
        simpa using hpos
      · rw [htake] at hbound
        cases fuel with
        | zero => simpa using hpos
        | succ k =>
          have h2 : 2 ^ (k + 1 + 1 - 1) = 2 * 2 ^ (k + 1 - 1) := by
            simp [pow_succ, Nat.mul_comm]
          omega
    · intro hcond
      rcases hcond with hf0 | hbound
      · exact absurd hf0 (Nat.succ_ne_zero fuel)
      · have h1 : (1 : ℕ) ≤ 2 ^ (fuel + 1 - 1) := Nat.one_le_two_pow
        have hpos : 0 < stops.length := by omega
        have hmid : (sortAxis i stops).length / 2 < (sortAxis i stops).length := by
          rw [hlen]
          omega
        have hchild : fuel = 0 ∨ 2 ^ (fuel - 1) ≤ stops.length / 2 := by
          cases fuel with
          | zero => exact Or.inl rfl
          | succ k =>
            right
            have h2 : 2 ^ (k + 1 + 1 - 1) = 2 * 2 ^ (k + 1 - 1) := by
              simp [pow_succ, Nat.mul_comm]
            omega
        have hlS := (ih _ (i + 1) (by omega)).mpr (by rw [htake]; exact hchild)
        have hrS := (ih _ (i + 1) (by omega)).mpr (by
          rw [hdrop]
          rcases hchild with hf0 | hb
          · exact Or.inl hf0
          · exact Or.inr (by omega))
        obtain ⟨l, hl⟩ := Option.isSome_iff_exists.mp hlS
        obtain ⟨r, hr⟩ := Option.isSome_iff_exists.mp hrS
        rw [buildAux, if_pos hi, List.getElem?_eq_getElem hmid, hl, hr]
        rfl

/-! ### Leaf count of well-shaped trees -/

lemma shapeAt_numLeaves : ∀ (t : Node) (i : ℕ), t.shapeAt i → t.numLeaves = 2 ^ (7 - i) := by
  intro t
  induction t with
  | leaf s =>
    intro i hs
    have hi : i = 7 := hs
    subst hi
    simp [Node.numLeaves]
  | inner v l r ihl ihr =>
    intro i hs
    obtain ⟨hi, hsl, hsr⟩ := hs
    show l.numLeaves + r.numLeaves = 2 ^ (7 - i)
    rw [ihl _ hsl, ihr _ hsr, show 7 - i = (7 - (i + 1)) + 1 by omega, pow_succ]
    ring

/-! ### The circle search -/

/-- `Location.dist(self, other)`: straight-line distance between the two
projected points (the square root forces the reals). -/
noncomputable def Location.dist (a b : Location) : ℝ :=
  Real.sqrt ((((a.x - b.x) ^ 2 + (a.y - b.y) ^ 2 : ℚ) : ℝ))

/-- Membership in `get_stops_circ` over a built tree is exactly Euclidean
distance to the origin at most the radius — for every radius, including
negative ones (where both sides are empty: the bounding square is
reversed, so the rectangle search returns nothing, and no point has
distance `≤ r < 0`). -/
lemma mem_get_stops_circ {pop : List Stop} {t : Node} (hb : build pop = some t)
    (s : Stop) (origin : ℚ × ℚ) (r : ℚ) :
    s ∈ get_stops_circ ⟨t⟩ origin r ↔
      s ∈ pop ∧ Location.dist s.location ⟨origin.1, origin.2⟩ ≤ (r : ℝ) := by
  have hdist : Location.dist s.location ⟨origin.1, origin.2⟩ ≤ (r : ℝ) ↔
      (0 : ℝ) ≤ (r : ℝ) ∧
        (((s.location.x - origin.1) ^ 2 + (s.location.y - origin.2) ^ 2 : ℚ) : ℝ) ≤
          (r : ℝ) ^ 2 := by
    unfold Location.dist
    exact Real.sqrt_le_iff
  have hshow : get_stops_circ ⟨t⟩ origin r =
      (Node.search t (origin.1 - r, origin.1 + r) (origin.2 - r, origin.2 + r) 1).filter
        (fun s => decide ((s.location.x - origin.1) ^ 2 + (s.location.y - origin.2) ^ 2 ≤
          r ^ 2)) := rfl
  rw [hshow, List.mem_filter, hdist]
  by_cases hr : 0 ≤ r
  · rw [(build_search_exact hb (show origin.1 - r ≤ origin.1 + r by linarith)
      (show origin.2 - r ≤ origin.2 + r by linarith)).mem_iff, List.mem_filter]
    simp only [inRect, decide_eq_true_eq]
    constructor
    · rintro ⟨⟨hpop, -⟩, hq⟩
      refine ⟨hpop, by exact_mod_cast hr, ?_⟩
      have h2 : ((r ^ 2 : ℚ) : ℝ) = (r : ℝ) ^ 2 := by push_cast; ring
      rw [← h2]
      exact_mod_cast hq
    · rintro ⟨hpop, -, hSq⟩
      have hq : (s.location.x - origin.1) ^ 2 + (s.location.y - origin.2) ^ 2 ≤ r ^ 2 := by
        have h2 : ((r ^ 2 : ℚ) : ℝ) = (r : ℝ) ^ 2 := by push_cast; ring
        rw [← h2] at hSq
        exact_mod_cast hSq
      refine ⟨⟨hpop, ?_, ?_, ?_, ?_⟩, hq⟩
      · nlinarith [sq_nonneg (s.location.y - origin.2), sq_nonneg (s.location.x - origin.1 + r)]
      · nlinarith [sq_nonneg (s.location.y - origin.2), sq_nonneg (s.location.x - origin.1 - r)]
      · nlinarith [sq_nonneg (s.location.x - origin.1), sq_nonneg (s.location.y - origin.2 + r)]
      · nlinarith [sq_nonneg (s.location.x - origin.1), sq_nonneg (s.location.y - origin.2 - r)]
  · have hrlt : r < 0 := not_le.mp hr
    rw [search_reversed t _ _ _ _ 1 (Or.inl (by linarith))]
    simp only [List.not_mem_nil, false_and, false_iff]
    rintro ⟨-, hr2, -⟩
    have : (0 : ℚ) ≤ r := by exact_mod_cast hr2
    linarith

/-! ### Query sequences retain no state -/

/-- A single facade query: the arguments of `get_stops_rect` or
`get_stops_circ`. -/
inductive Query where
  | rect (xlim ylim : ℚ × ℚ)
  | circ (origin : ℚ × ℚ) (radius : ℚ)

/-- Running one query against a `BusDay`, returning its result together
with the state of the object afterwards.  Neither Python method assigns
any attribute, so the state passed on is the state received. -/
def runQuery (b : BusDay) : Query → List Stop × BusDay
  | .rect xlim ylim => (get_stops_rect b xlim ylim, b)
  | .circ origin radius => (get_stops_circ b origin radius, b)

/-- Running a sequence of queries, threading the object state through. -/
def runQueries (b : BusDay) : List Query → List (List Stop) × BusDay
  | [] => ([], b)
  | q :: qs =>
    ((runQuery b q).1 :: (runQueries (runQuery b q).2 qs).1, (runQueries (runQuery b q).2 qs).2)

lemma runQuery_state (b : BusDay) (q : Query) : (runQuery b q).2 = b := by
  cases q <;> rfl

/-! ### Geo-projection over the reals -/

/-- `Location.capital_lat`. -/
noncomputable def capital_lat : ℝ := 43.074683

/-- `Location.capital_lon`. -/
noncomputable def capital_lon : ℝ := -89.384261

/-- The haversine quantity `a` of `haversine_miles`, after the degree →
radian conversion `a/180*pi` of all four inputs. -/
noncomputable def haversine_a (lat1 lon1 lat2 lon2 : ℝ) : ℝ :=
  Real.sin ((lat2 / 180 * Real.pi - lat1 / 180 * Real.pi) / 2) ^ 2 +
    Real.cos (lat1 / 180 * Real.pi) * Real.cos (lat2 / 180 * Real.pi) *
      Real.sin ((lon2 / 180 * Real.pi - lon1 / 180 * Real.pi) / 2) ^ 2

/-- The argument handed to `asin`: `min(1, sqrt(a))`. -/
noncomputable def haversine_asin_arg (lat1 lon1 lat2 lon2 : ℝ) : ℝ :=
  min 1 (Real.sqrt (haversine_a lat1 lon1 lat2 lon2))

/-- `haversine_miles(lat1, lon1, lat2, lon2)`:
`c = 2 * asin(min(1, sqrt(a)))`, `d = 3956 * c`. -/
noncomputable def haversine_miles (lat1 lon1 lat2 lon2 : ℝ) : ℝ :=
  3956 * (2 * Real.arcsin (haversine_asin_arg lat1 lon1 lat2 lon2))

/-- The lat/lon branch of `Location.__init__`: the unsigned axis distances
via `haversine_miles`, with `x *= -1` when the longitude is west of the
capitol and `y *= -1` when the latitude is south of it. -/
noncomputable def location_xy (lat lon : ℝ) : ℝ × ℝ :=
  (if lon < capital_lon then haversine_miles capital_lat capital_lon capital_lat lon * (-1)
    else haversine_miles capital_lat capital_lon capital_lat lon,
   if lat < capital_lat then haversine_miles capital_lat capital_lon lat capital_lon * (-1)
    else haversine_miles capital_lat capital_lon lat capital_lon)

/-- The projection as the specification words it: unsigned x is the
haversine distance from the reference to the point sharing the reference's
latitude and the point's longitude (symmetrically for y), negated exactly
when the longitude (resp. latitude) is below the reference's. -/
noncomputable def location_xy_spec (lat lon : ℝ) : ℝ × ℝ :=
  (if lon < capital_lon then -(haversine_miles capital_lat capital_lon capital_lat lon)
    else haversine_miles capital_lat capital_lon capital_lat lon,
   if lat < capital_lat then -(haversine_miles capital_lat capital_lon lat capital_lon)
    else haversine_miles capital_lat capital_lon lat capital_lon)

lemma haversine_a_self (lat lon : ℝ) : haversine_a lat lon lat lon = 0 := by
  simp [haversine_a]

lemma haversine_miles_self (lat lon : ℝ) : haversine_miles lat lon lat lon = 0 := by
  rw [haversine_miles, haversine_asin_arg, haversine_a_self, Real.sqrt_zero,
    min_eq_right (by norm_num : (0 : ℝ) ≤ 1), Real.arcsin_zero]
  ring

/-! ### A concrete population, for witnesses -/

/-- 32 stops on the diagonal: the smallest population size the hard-coded
depth-7 recursion can build a tree over. -/
def pop32 : List Stop :=
  (List.range 32).map (fun k =>
    { stop_id := k, location := { x := (k : ℚ), y := (k : ℚ) }, wheelchair_boarding := false })

lemma pop32_isSome : (build pop32).isSome = true := by decide

/-- The tree built over `pop32`. -/
def t32 : Node := (build pop32).get pop32_isSome

lemma build_pop32 : build pop32 = some t32 := (Option.some_get pop32_isSome).symm

end Bus

namespace Bus

/-! ### The claims -/

/-- C1: for every stop population on which the tree is successfully built
(any size, duplicate coordinates included) and every query with ordered
bounds, `Node.search` returns exactly the stops of the population whose
`location.x` lies in `[x1, x2]` and whose `location.y` lies in `[y1, y2]`,
bounds inclusive — no false positives, no false negatives (stated as a
permutation of the brute-force filter, so multiplicity is preserved too).
Per-stop containment (`inRect`) is tested only in the leaf branch of
`Node.search`; the internal branches compare only the split coordinate. -/
theorem search_rect_exact (pop : List Stop) (t : Node) (x1 x2 y1 y2 : ℚ)
    (hb : build pop = some t) (hx : x1 ≤ x2) (hy : y1 ≤ y2) :
    (t.search (x1, x2) (y1, y2) 1).Perm (pop.filter (inRect (x1, x2) (y1, y2))) :=
  build_search_exact hb hx hy

theorem search_rect_exact_witness :
    build pop32 = some t32 ∧ (0 : ℚ) ≤ 5 ∧ (-100 : ℚ) ≤ 100 ∧
      (Node.search t32 (0, 5) (-100, 100) 1).Perm
        (pop32.filter (inRect (0, 5) (-100, 100))) :=
  ⟨build_pop32, by decide, by decide,
    search_rect_exact pop32 t32 0 5 (-100) 100 build_pop32 (by decide) (by decide)⟩

/-- C2 counterexample: the claim says a reversed x-range `(x2, x1)` with
`x2 > x1` yields results identical to the normalized `(x1, x2)`.  It does
not: `Node.search` never swaps its bounds, and on the concrete built tree
`t32` the reversed query `(5, 0)` returns nothing while the normalized
query `(0, 5)` returns six stops. -/
theorem search_reversed_not_normalized_cex :
    Node.search t32 (5, 0) (-100, 100) 1 ≠ Node.search t32 (0, 5) (-100, 100) 1 := by
  decide

/-- C2 (amended): the search routine does not normalize reversed bounds.
A strictly reversed range on either axis makes the inclusive leaf test
unsatisfiable, so the search returns the empty list on any tree — instead
of the normalized query's results. -/
theorem search_reversed_empty (t : Node) (a b c d : ℚ) (h : b < a ∨ d < c) :
    t.search (a, b) (c, d) 1 = [] :=
  search_reversed t a b c d 1 h

theorem search_reversed_empty_witness :
    ((0 : ℚ) < 5 ∨ (100 : ℚ) < -100) ∧ Node.search t32 (5, 0) (-100, 100) 1 = [] :=
  ⟨Or.inl (by decide), search_reversed_empty t32 5 0 (-100) 100 (Or.inl (by decide))⟩

/-- C3 counterexample: the claim says building the index over an empty
stop population succeeds and yields a tree.  It does not: `Node([])`
reaches `stops[len(stops)//2]` on an empty list at depth 1 and raises
`IndexError` (modelled: the construction yields `none`, not a tree). -/
theorem build_empty_fails_cex : build ([] : List Stop) = none := by decide

/-- C3 (amended): construction is not total — it succeeds exactly for
populations of at least 32 stops (every internal node down to the
hard-coded depth 7 must receive a non-empty subset, and the smallest
subset after six floor-halvings is `len // 32`); for fewer stops,
including sizes 0 and 1, it fails.  Queries themselves are total over any
built tree. -/
theorem build_isSome_iff (pop : List Stop) :
    (build pop).isSome = true ↔ 32 ≤ pop.length := by
  have h := buildAux_isSome 6 pop 1 (by norm_num)
  have hb : build pop = buildAux 6 pop 1 := rfl
  rw [hb, h]
  norm_num

/-- C4: at every internal node of a built tree (described recursively by
`Node.medianInv`): the node's input subset, sorted on the depth-parity
axis, has the split value at sorted index `mid = len // 2`, the left child
receives exactly the sorted elements at indices `[0, mid)`, the right
child exactly those at `[mid, len)` — the median element goes to the right
partition — and every element in the left child's subtree has axis
coordinate `≤` the split value. -/
theorem median_split (pop : List Stop) (t : Node) (hb : build pop = some t) :
    t.medianInv 1 :=
  buildAux_medianInv 6 pop 1 t hb

theorem median_split_witness : build pop32 = some t32 ∧ t32.medianInv 1 :=
  ⟨build_pop32, median_split pop32 t32 build_pop32⟩

/-- C5: for every population the tree is built over, the concatenation of
all leaf stop lists is a permutation of the input population — every stop
lands in exactly one leaf, none lost, none duplicated. -/
theorem partition_exact (pop : List Stop) (t : Node) (hb : build pop = some t) :
    t.allStops.Perm pop :=
  buildAux_allStops 6 pop 1 t hb

theorem partition_exact_witness : build pop32 = some t32 ∧ t32.allStops.Perm pop32 :=
  ⟨build_pop32, partition_exact pop32 t32 build_pop32⟩

/-- C6: `get_stops_circ` computes the bounding square
`(ox - r, ox + r) × (oy - r, oy + r)`, calls the rectangle search on it
and keeps the stops with squared distance `≤ r²` (that is its definition);
over a built tree its members are exactly the population stops whose
Euclidean distance to the origin is at most `r` — containment and
completeness — for every radius, including `r ≤ 0`, which yields an empty
or boundary-only result and never an error. -/
theorem circ_search_exact (pop : List Stop) (t : Node) (hb : build pop = some t)
    (s : Stop) (origin : ℚ × ℚ) (r : ℚ) :
    s ∈ get_stops_circ ⟨t⟩ origin r ↔
      s ∈ pop ∧ Location.dist s.location ⟨origin.1, origin.2⟩ ≤ (r : ℝ) :=
  mem_get_stops_circ hb s origin r

theorem circ_search_exact_witness :
    build pop32 = some t32 ∧
      (({ stop_id := 0, location := { x := 0, y := 0 }, wheelchair_boarding := false } : Stop) ∈
          get_stops_circ ⟨t32⟩ (0, 0) 10 ↔
        ({ stop_id := 0, location := { x := 0, y := 0 }, wheelchair_boarding := false } : Stop) ∈
            pop32 ∧
          Location.dist { x := 0, y := 0 } { x := 0, y := 0 } ≤ ((10 : ℚ) : ℝ)) :=
  ⟨build_pop32, circ_search_exact pop32 t32 build_pop32
    { stop_id := 0, location := { x := 0, y := 0 }, wheelchair_boarding := false } (0, 0) 10⟩

/-- C7: queries retain no state and never mutate the tree.  Threading the
`BusDay` object through an arbitrary sequence of rectangle and circle
queries, the final object is the initial one, and every query's result
equals the result of running that query alone against the original object
— so two identical calls return equal results and nothing leaks from one
call to the next.  (Each call's result list is built afresh by
`Node.search` from the tree and the arguments alone; the mutable
default-argument accumulator the specification warns about does not exist
in this search.) -/
theorem queries_stateless (b : BusDay) (qs : List Query) :
    (runQueries b qs).2 = b ∧ (runQueries b qs).1 = qs.map (fun q => (runQuery b q).1) := by
  induction qs with
  | nil => exact ⟨rfl, rfl⟩
  | cons q qs ih =>
    have hq : (runQuery b q).2 = b := runQuery_state b q
    constructor
    · show (runQueries (runQuery b q).2 qs).2 = b
      rw [hq]
      exact ih.1
    · show (runQuery b q).1 :: (runQueries (runQuery b q).2 qs).1 =
        (runQuery b q).1 :: qs.map (fun q => (runQuery b q).1)
      rw [hq, ih.2]

/-- C8: `haversine_miles` clamps the argument handed to `asin` via
`min(1, sqrt(a))`, so the arcsine argument always lies in `[0, 1]` (in
particular never above 1, even when `sqrt(a)` overshoots at antipodal or
identical points), and the returned distance `3956 * c` is non-negative
for every input.  (Real-valued model: every value is finite by type.) -/
theorem haversine_clamped_nonneg (lat1 lon1 lat2 lon2 : ℝ) :
    0 ≤ haversine_asin_arg lat1 lon1 lat2 lon2 ∧
      haversine_asin_arg lat1 lon1 lat2 lon2 ≤ 1 ∧
      0 ≤ haversine_miles lat1 lon1 lat2 lon2 := by
  have harg : 0 ≤ haversine_asin_arg lat1 lon1 lat2 lon2 :=
    le_min zero_le_one (Real.sqrt_nonneg _)
  refine ⟨harg, min_le_left _ _, ?_⟩
  have h0 : 0 ≤ Real.arcsin (haversine_asin_arg lat1 lon1 lat2 lon2) :=
    Real.arcsin_nonneg.mpr harg
  exact mul_nonneg (by norm_num) (mul_nonneg (by norm_num) h0)

/-- C9: projecting the reference point's own latitude and longitude yields
exactly `(0, 0)` (stronger than the 1e-9 tolerance asked for), and for
every input the projected x is the haversine distance along the longitude
axis, negated exactly when `lon <` the reference longitude, and y the
haversine distance along the latitude axis, negated exactly when `lat <`
the reference latitude (the code's `* -1` agrees pointwise with the
specification's negation). -/
theorem projection_reference_and_signs :
    location_xy capital_lat capital_lon = (0, 0) ∧
      ∀ lat lon : ℝ, location_xy lat lon = location_xy_spec lat lon := by
  constructor
  · unfold location_xy
    rw [haversine_miles_self]
    simp [lt_irrefl]
  · intro lat lon
    unfold location_xy location_xy_spec
    refine Prod.ext ?_ ?_ <;> dsimp only <;> split <;> ring

/-- C10: every tree the build produces is a perfect binary tree of fixed
height: `Node.shapeAt t 1` says a node at depth `i` is internal exactly
when `i < 7` — internal nodes at depths 1 through 6, every leaf at depth
exactly 7 — and consequently there are exactly `2^6 = 64` leaves,
regardless of population size.  (Each leaf stores its node's entire
residual subset — the leaf branch of `buildAux` — and `Node.search` uses
the same hard-coded `i < 7` test to decide when it has reached a leaf.) -/
theorem tree_depth7_perfect (pop : List Stop) (t : Node) (hb : build pop = some t) :
    t.shapeAt 1 ∧ t.numLeaves = 64 := by
  have hb6 : buildAux 6 pop 1 = some t := hb
  have hs := buildAux_shapeAt 6 pop 1 t hb6 (by norm_num)
  refine ⟨hs, ?_⟩
  rw [shapeAt_numLeaves t 1 hs]
  norm_num

theorem tree_depth7_perfect_witness :
    build pop32 = some t32 ∧ (t32.shapeAt 1 ∧ t32.numLeaves = 64) :=
  ⟨build_pop32, tree_depth7_perfect pop32 t32 build_pop32⟩

end Bus
